import Mathlib

/-!
Verification of the Tarot front-end streaming client (`src/app.js`).

The file embeds, as executable Lean definitions over `List Char` / `List Nat`:
  * the SSE framing logic of the read loop in `startStream` (buffer split on
    blank lines, per-segment `event:` / `data:` line parsing, payload joining,
    escaped-newline unescaping);
  * the stateful `TextDecoder` byte-to-text decoding used by the loop;
  * the stream lifecycle (`initDialog`, `startStream`, `stopStream`) as state
    transformers over an explicit application state, an environment describing
    the network responses, and a trace of observable actions.

Theorems at the end settle the claims about chunking invariance of the parser,
lifecycle invariants, and the error-handling paths.
-/

namespace Tarot

/-! ## SSE framing at the text level

`startStream` (app.js lines 142-158) accumulates decoded text in `buf`,
splits on `"\n\n"` (`buf.split("\n\n")`), keeps the trailing partial segment
(`buf = parts.pop() || ""`), and parses each completed segment. -/

/-- JavaScript `s.split("\n\n")` on a character list: leftmost, non-overlapping
occurrences of the two-character separator delimit the parts. -/
def splitBlank : List Char → List (List Char)
  | [] => [[]]
  | [c] => [[c]]
  | c1 :: c2 :: rest =>
    if c1 = '\n' ∧ c2 = '\n' then [] :: splitBlank rest
    else match splitBlank (c2 :: rest) with
      | [] => [[c1]]
      | p :: ps => (c1 :: p) :: ps

/-- JavaScript `Array.prototype.join(sep)`: concatenate the parts with `sep`
between consecutive parts; the empty array joins to the empty string. -/
def joinSep (sep : List Char) : List (List Char) → List Char
  | [] => []
  | [p] => p
  | p :: q :: ps => p ++ sep ++ joinSep sep (q :: ps)

/-- The character list contains no occurrence of the `"\n\n"` separator. -/
def noBlank : List Char → Bool
  | [] => true
  | [_] => true
  | c1 :: c2 :: rest => !(c1 == '\n' && c2 == '\n') && noBlank (c2 :: rest)

theorem splitBlank_ne_nil (s : List Char) : splitBlank s ≠ [] := by
  induction s using splitBlank.induct with
  | case1 => simp [splitBlank]
  | case2 c => simp [splitBlank]
  | case3 c1 c2 rest h ih => simp [splitBlank, h]
  | case4 c1 c2 rest h heq ih => simp [splitBlank, h, heq]
  | case5 c1 c2 rest h p ps heq ih => simp [splitBlank, h, heq]

/-- Joining the parts of `splitBlank` with the separator recovers the input. -/
theorem joinSep_splitBlank (s : List Char) :
    joinSep ['\n', '\n'] (splitBlank s) = s := by
  induction s using splitBlank.induct with
  | case1 => rfl
  | case2 c => rfl
  | case3 c1 c2 rest h ih =>
    obtain ⟨h1, h2⟩ := h; subst h1; subst h2
    simp only [splitBlank, if_pos (And.intro rfl rfl)]
    cases hsb : splitBlank rest with
    | nil => exact absurd hsb (splitBlank_ne_nil rest)
    | cons p ps =>
      rw [hsb] at ih
      simpa [joinSep] using ih
  | case4 c1 c2 rest h heq ih => exact absurd heq (splitBlank_ne_nil _)
  | case5 c1 c2 rest h p ps heq ih =>
    rw [heq] at ih
    simp only [splitBlank, if_neg h, heq]
    cases ps with
    | nil => simpa [joinSep] using ih
    | cons q qs =>
      simp only [joinSep] at ih ⊢
      simp [← ih]

/-- A separator-free string is a single part. -/
theorem splitBlank_of_noBlank (s : List Char) (h : noBlank s = true) :
    splitBlank s = [s] := by
  induction s using splitBlank.induct with
  | case1 => rfl
  | case2 c => rfl
  | case3 c1 c2 rest hc ih =>
    obtain ⟨h1, h2⟩ := hc; subst h1; subst h2
    simp [noBlank] at h
  | case4 c1 c2 rest hc heq ih => exact absurd heq (splitBlank_ne_nil _)
  | case5 c1 c2 rest hc p ps heq ih =>
    simp only [noBlank, Bool.and_eq_true] at h
    have hsingle := ih h.2
    rw [heq] at hsingle
    injection hsingle with hp hps
    subst hp; subst hps
    simp [splitBlank, hc, heq]

/-- Every part produced by `splitBlank` is itself separator-free. -/
theorem noBlank_of_mem_splitBlank (s : List Char) :
    ∀ p ∈ splitBlank s, noBlank p = true := by
  induction s using splitBlank.induct with
  | case1 => intro p hp; simp [splitBlank] at hp; simp [hp, noBlank]
  | case2 c => intro p hp; simp [splitBlank] at hp; simp [hp, noBlank]
  | case3 c1 c2 rest h ih =>
    intro p hp
    simp only [splitBlank, if_pos h, List.mem_cons] at hp
    rcases hp with hp | hp
    · simp [hp, noBlank]
    · exact ih p hp
  | case4 c1 c2 rest h heq ih => exact absurd heq (splitBlank_ne_nil _)
  | case5 c1 c2 rest h p ps heq ih =>
    intro q hq
    simp only [splitBlank, if_neg h, heq, List.mem_cons] at hq
    rcases hq with hq | hq
    · subst hq
      have hjoin := joinSep_splitBlank (c2 :: rest)
      rw [heq] at hjoin
      have hpnb : noBlank p = true := ih p (by rw [heq]; exact List.mem_cons_self p ps)
      cases hp : p with
      | nil => simp [noBlank]
      | cons d p' =>
        have hd : d = c2 := by
          subst hp
          cases ps with
          | nil => simpa [joinSep] using congrArg List.head? hjoin
          | cons q' qs' => simpa [joinSep] using congrArg List.head? hjoin
        subst hd
        rw [hp] at hpnb
        simp only [noBlank, Bool.and_eq_true]
        refine ⟨?_, hpnb⟩
        rcases not_and_or.mp h with hc | hc <;> simp [hc]
    · exact ih q (by rw [heq]; exact List.mem_cons_of_mem p hq)

/-- Appending more text only refines the last (still incomplete) part:
the completed parts of `a` are unchanged and the last part of `a` is
re-split together with `b`. This is the heart of chunking invariance. -/
theorem splitBlank_append (a b : List Char) :
    splitBlank (a ++ b) =
      (splitBlank a).dropLast ++ splitBlank ((splitBlank a).getLastD [] ++ b) := by
  induction a using splitBlank.induct with
  | case1 => simp [splitBlank]
  | case2 c => simp [splitBlank]
  | case3 c1 c2 rest h ih =>
    obtain ⟨h1, h2⟩ := h; subst h1; subst h2
    have hstep : splitBlank (('\n' :: '\n' :: rest : List Char) ++ b)
        = [] :: splitBlank (rest ++ b) := by
      simp [splitBlank]
    rw [hstep, ih]
    cases hsb : splitBlank rest with
    | nil => exact absurd hsb (splitBlank_ne_nil rest)
    | cons p ps =>
      simp only [splitBlank, if_pos (And.intro rfl rfl), hsb]
      cases ps with
      | nil => simp
      | cons q qs => simp [List.getLastD_cons]
  | case4 c1 c2 rest h heq ih => exact absurd heq (splitBlank_ne_nil _)
  | case5 c1 c2 rest h p ps heq ih =>
    have hcons : (c1 :: c2 :: rest : List Char) ++ b = c1 :: c2 :: (rest ++ b) := by simp
    have hih : splitBlank (c2 :: (rest ++ b))
        = (p :: ps).dropLast ++ splitBlank ((p :: ps).getLastD [] ++ b) := by
      have := ih
      rw [heq] at this
      simpa using this
    cases ps with
    | nil =>
      have hp : p = c2 :: rest := by
        have hjoin := joinSep_splitBlank (c2 :: rest)
        rw [heq] at hjoin
        simpa [joinSep] using hjoin
      subst hp
      have hsbl : splitBlank (c1 :: c2 :: rest) = [c1 :: c2 :: rest] := by
        simp [splitBlank, if_neg h, heq]
      rw [hsbl]
      simp
    | cons q qs =>
      have hlast1 : (p :: q :: qs).getLastD [] = qs.getLastD q := by
        rw [List.getLastD_cons, List.getLastD_cons]
      have hdrop1 : (p :: q :: qs).dropLast = p :: (q :: qs).dropLast := rfl
      rw [hlast1, hdrop1] at hih
      have hsbl : splitBlank (c1 :: c2 :: rest) = (c1 :: p) :: q :: qs := by
        simp [splitBlank, if_neg h, heq]
      have hstep : splitBlank (c1 :: c2 :: (rest ++ b))
          = (c1 :: p) :: ((q :: qs).dropLast ++ splitBlank (qs.getLastD q ++ b)) := by
        simp [splitBlank, if_neg h, hih]
      rw [hcons, hstep, hsbl]
      rw [show ((c1 :: p) :: q :: qs).getLastD [] = qs.getLastD q from by
        rw [List.getLastD_cons, List.getLastD_cons]]
      rfl

/-- No part of a `splitBlank` decomposition ends the buffer with an unseen
separator: a separator-free segment followed by a blank line splits off as one
completed part. `h2` rules out a separator straddling the boundary. -/
theorem splitBlank_frame (seg t : List Char) (h1 : noBlank seg = true)
    (h2 : seg.getLast? ≠ some '\n') :
    splitBlank (seg ++ '\n' :: '\n' :: t) = seg :: splitBlank t := by
  induction seg with
  | nil => simp [splitBlank]
  | cons c s' ih =>
    cases s' with
    | nil =>
      have hc : c ≠ '\n' := by
        intro hcc
        exact h2 (by simp [hcc])
      simp [splitBlank, hc]
    | cons d s'' =>
      have hnb : ¬(c = '\n' ∧ d = '\n') ∧ noBlank (d :: s'') = true := by
        simp only [noBlank, Bool.and_eq_true, Bool.not_eq_true', Bool.and_eq_false_iff] at h1
        constructor
        · intro hand
          rcases h1.1 with hf | hf <;> simp [hand.1, hand.2] at hf
        · exact h1.2
      have hlast : (d :: s'' : List Char).getLast? ≠ some '\n' := by
        simpa [List.getLast?_cons_cons] using h2
      have hrec := ih hnb.2 hlast
      have hsh : (c :: d :: s'' : List Char) ++ '\n' :: '\n' :: t
          = c :: d :: (s'' ++ '\n' :: '\n' :: t) := by simp
      rw [hsh]
      simp only [splitBlank, if_neg hnb.1]
      have hrec' : splitBlank (d :: (s'' ++ '\n' :: '\n' :: t))
          = (d :: s'') :: splitBlank t := by simpa using hrec
      rw [hrec']

/-- The byte-stream text made of well-framed segments, each terminated by a
blank line. -/
def framedText (segs : List (List Char)) : List Char :=
  (segs.map (fun s => s ++ ['\n', '\n'])).flatten

/-- Splitting a fully well-framed text yields exactly the segments plus the
empty trailing buffer. -/
theorem splitBlank_framedText (segs : List (List Char))
    (h : ∀ s ∈ segs, noBlank s = true ∧ s.getLast? ≠ some '\n') :
    splitBlank (framedText segs) = segs ++ [[]] := by
  induction segs with
  | nil => simp [framedText, splitBlank]
  | cons s ss ih =>
    have hs := h s (List.mem_cons_self s ss)
    have hrest : framedText (s :: ss) = s ++ '\n' :: '\n' :: framedText ss := by
      simp [framedText]
    rw [hrest, splitBlank_frame s (framedText ss) hs.1 hs.2,
      ih (fun x hx => h x (List.mem_cons_of_mem s hx))]
    simp

/-! ## Segment parsing

A completed segment is split on single newlines (`chunk.split("\n")`); lines
starting with `"event:"` set the event kind via `line.slice(6).trim()` (last
one wins), lines starting with `"data:"` contribute `line.slice(5).trim()`,
and the data lines are joined with `"\n"` (app.js lines 147-158). -/

/-- JavaScript `s.split("\n")` on a character list. -/
def splitNl : List Char → List (List Char)
  | [] => [[]]
  | c :: rest =>
    if c = '\n' then [] :: splitNl rest
    else match splitNl rest with
      | [] => [[c]]
      | p :: ps => (c :: p) :: ps

/-- The whitespace set of JavaScript `String.prototype.trim` restricted to the
code points that can occur here (ASCII whitespace plus NBSP, BOM and the two
Unicode line separators). -/
def isJsWs (c : Char) : Bool :=
  c == ' ' || c == '\t' || c == '\n' || c == '\r' ||
  c == '\x0b' || c == '\x0c' || c == '\u00A0' || c == '\uFEFF' ||
  c == '\u2028' || c == '\u2029'

/-- JavaScript `s.trim()`: strip leading and trailing whitespace. -/
def trimBoth (l : List Char) : List Char :=
  ((l.dropWhile isJsWs).reverse.dropWhile isJsWs).reverse

/-- A parsed stream event: kind plus joined payload. -/
structure Event where
  kind : List Char
  payload : List Char
deriving DecidableEq, Repr

/-- The `"event:"` marker. -/
def evMark : List Char := ['e', 'v', 'e', 'n', 't', ':']

/-- The `"data:"` marker. -/
def dataMark : List Char := ['d', 'a', 't', 'a', ':']

/-- The per-line loop of the segment parser: `evt` starts as `"message"` and is
overwritten by each `event:` line; `data:` lines are pushed in order. -/
def parseLinesAux : List (List Char) → List Char → List (List Char) →
    List Char × List (List Char)
  | [], evt, dls => (evt, dls)
  | l :: ls, evt, dls =>
    if evMark.isPrefixOf l then parseLinesAux ls (trimBoth (l.drop 6)) dls
    else if dataMark.isPrefixOf l then
      parseLinesAux ls evt (dls ++ [trimBoth (l.drop 5)])
    else parseLinesAux ls evt dls

/-- Parse one completed segment into an event (app.js lines 147-158). -/
def parseSegment (seg : List Char) : Event :=
  let r := parseLinesAux (splitNl seg) "message".data []
  ⟨r.1, joinSep ['\n'] r.2⟩

/-- JavaScript `s.replaceAll("\\n", "\n")`: leftmost, non-overlapping
replacement of the two-character escape by a literal newline. -/
def unescapeNl : List Char → List Char
  | [] => []
  | [c] => [c]
  | c1 :: c2 :: rest =>
    if c1 = '\\' ∧ c2 = 'n' then '\n' :: unescapeNl rest
    else c1 :: unescapeNl (c2 :: rest)

/-- The events emitted when a whole text is in the buffer: every completed
part (all but the trailing one) becomes an event. -/
def stringEvents (s : List Char) : List Event :=
  (splitBlank s).dropLast.map parseSegment

theorem not_dataMark_of_evMark (l : List Char) (h : evMark.isPrefixOf l = true) :
    dataMark.isPrefixOf l = false := by
  cases l with
  | nil => simp [evMark, List.isPrefixOf] at h
  | cons c cs =>
    simp only [evMark, List.isPrefixOf, Bool.and_eq_true, beq_iff_eq] at h
    obtain ⟨hc, -⟩ := h
    subst hc
    simp [dataMark, List.isPrefixOf]

/-- Characterization of the per-line loop: the final kind is the trimmed tail
of the last `event:` line (or the running default), and the data lines are the
trimmed tails of the `data:` lines in order. -/
theorem parseLinesAux_spec (ls : List (List Char)) (evt : List Char)
    (dls : List (List Char)) :
    parseLinesAux ls evt dls =
      (((ls.filter (fun l => evMark.isPrefixOf l)).map
          (fun l => trimBoth (l.drop 6))).getLastD evt,
       dls ++ (ls.filter (fun l => dataMark.isPrefixOf l)).map
          (fun l => trimBoth (l.drop 5))) := by
  induction ls generalizing evt dls with
  | nil => simp [parseLinesAux]
  | cons l ls ih =>
    by_cases he : evMark.isPrefixOf l
    · have hd := not_dataMark_of_evMark l he
      simp only [parseLinesAux, he, if_pos, hd, List.filter_cons, Bool.false_eq_true,
        if_false, List.map_cons]
      rw [ih, List.getLastD_cons]
    · by_cases hd : dataMark.isPrefixOf l
      · simp only [parseLinesAux, he, Bool.false_eq_true, if_false, hd, if_pos,
          List.filter_cons, List.map_cons]
        rw [ih]
        simp
      · simp only [parseLinesAux, he, hd, Bool.false_eq_true, if_false,
          List.filter_cons]
        rw [ih]

/-! ## Stateful byte-to-text decoding

The read loop decodes each received byte chunk with
`decoder.decode(value, { stream: true })` (app.js lines 134, 142): a stateful
UTF-8 decoder that retains the trailing bytes of an incomplete code point
between chunks. We model the decoder as a byte-at-a-time fold whose state is
the pending incomplete byte sequence, which matches `TextDecoder` on valid
UTF-8 input. -/

/-- Standard UTF-8 encoding of one character. -/
def utf8EncodeChar (c : Char) : List Nat :=
  let n := c.toNat
  if n < 128 then [n]
  else if n < 2048 then [192 + n / 64, 128 + n % 64]
  else if n < 65536 then [224 + n / 4096, 128 + (n / 64) % 64, 128 + n % 64]
  else [240 + n / 262144, 128 + (n / 4096) % 64, 128 + (n / 64) % 64, 128 + n % 64]

/-- Standard UTF-8 encoding of a character list. -/
def utf8Encode (s : List Char) : List Nat := (s.map utf8EncodeChar).flatten

/-- Total length of a UTF-8 code-point sequence, read off its lead byte. -/
def utf8Len (b : Nat) : Nat :=
  if b < 128 then 1 else if b < 224 then 2 else if b < 240 then 3 else 4

/-- Decode one complete UTF-8 code-point byte sequence. -/
def decodeChar : List Nat → Char
  | [b] => Char.ofNat b
  | [b1, b2] => Char.ofNat ((b1 % 32) * 64 + b2 % 64)
  | [b1, b2, b3] => Char.ofNat ((b1 % 16) * 4096 + (b2 % 64) * 64 + b3 % 64)
  | [b1, b2, b3, b4] =>
    Char.ofNat ((b1 % 8) * 262144 + (b2 % 64) * 4096 + (b3 % 64) * 64 + b4 % 64)
  | _ => Char.ofNat 0

/-- One decoder step: append the byte to the pending sequence; once the
sequence is complete, emit the decoded character and clear the pending state. -/
def decStep (s : List Char × List Nat) (b : Nat) : List Char × List Nat :=
  if utf8Len ((s.2 ++ [b]).headD 0) ≤ (s.2 ++ [b]).length
  then (s.1 ++ [decodeChar (s.2 ++ [b])], [])
  else (s.1, s.2 ++ [b])

/-- Decode a chunk of bytes starting from pending state `pend`, returning the
decoded text and the new pending state. -/
def decodeChunk (pend : List Nat) (bytes : List Nat) : List Char × List Nat :=
  bytes.foldl decStep ([], pend)

theorem char_toNat_lt (c : Char) : c.toNat < 1114112 := by
  have := c.valid
  unfold isValidChar at this
  rcases this with h | ⟨h1, h2⟩
  · have h' : c.val.toNat < 55296 := h
    simpa [Char.toNat] using Nat.lt_trans h' (by norm_num)
  · have h' : c.val.toNat < 1114112 := h2
    simpa [Char.toNat] using h'

theorem decStep_complete (out : List Char) (pend : List Nat) (b : Nat)
    (h : utf8Len ((pend ++ [b]).headD 0) ≤ (pend ++ [b]).length) :
    decStep (out, pend) b = (out ++ [decodeChar (pend ++ [b])], []) := by
  unfold decStep; rw [if_pos h]

theorem decStep_incomplete (out : List Char) (pend : List Nat) (b : Nat)
    (h : ¬ utf8Len ((pend ++ [b]).headD 0) ≤ (pend ++ [b]).length) :
    decStep (out, pend) b = (out, pend ++ [b]) := by
  unfold decStep; rw [if_neg h]

theorem foldl_decStep_encodeChar (c : Char) (out : List Char) :
    (utf8EncodeChar c).foldl decStep (out, []) = (out ++ [c], []) := by
  have hlt := char_toNat_lt c
  unfold utf8EncodeChar
  by_cases h1 : c.toNat < 128
  · rw [if_pos h1]
    simp only [List.foldl_cons, List.foldl_nil]
    rw [decStep_complete out [] _ (by simp [utf8Len, h1])]
    simp [decodeChar, Char.ofNat_toNat]
  · rw [if_neg h1]
    push_neg at h1
    by_cases h2 : c.toNat < 2048
    · rw [if_pos h2]
      have hb1 : utf8Len (192 + c.toNat / 64) = 2 := by
        unfold utf8Len
        rw [if_neg (by omega), if_pos (by omega)]
      simp only [List.foldl_cons, List.foldl_nil]
      rw [decStep_incomplete out [] _ (by simp only [List.nil_append, List.headD_cons,
            List.length_cons, List.length_nil, hb1]; omega)]
      rw [decStep_complete out _ _ (by simp only [List.cons_append, List.nil_append,
            List.headD_cons, List.length_cons, List.length_nil, hb1]; omega)]
      have harg : ((192 + c.toNat / 64) % 32) * 64 + (128 + c.toNat % 64) % 64
          = c.toNat := by omega
      simp only [List.cons_append, List.nil_append, decodeChar]
      rw [harg, Char.ofNat_toNat]
    · push_neg at h2
      rw [if_neg (by omega)]
      by_cases h3 : c.toNat < 65536
      · rw [if_pos h3]
        have hb1 : utf8Len (224 + c.toNat / 4096) = 3 := by
          unfold utf8Len
          rw [if_neg (by omega), if_neg (by omega), if_pos (by omega)]
        simp only [List.foldl_cons, List.foldl_nil]
        rw [decStep_incomplete out [] _ (by simp only [List.nil_append, List.headD_cons,
              List.length_cons, List.length_nil, hb1]; omega)]
        rw [decStep_incomplete out _ _ (by simp only [List.cons_append, List.nil_append,
              List.headD_cons, List.length_cons, List.length_nil, hb1]; omega)]
        rw [decStep_complete out _ _ (by simp only [List.cons_append, List.nil_append,
              List.headD_cons, List.length_cons, List.length_nil, hb1]; omega)]
        have harg : ((224 + c.toNat / 4096) % 16) * 4096
            + ((128 + (c.toNat / 64) % 64) % 64) * 64 + (128 + c.toNat % 64) % 64
            = c.toNat := by omega
        simp only [List.cons_append, List.nil_append, decodeChar]
        rw [harg, Char.ofNat_toNat]
      · push_neg at h3
        rw [if_neg (by omega)]
        have hb1 : utf8Len (240 + c.toNat / 262144) = 4 := by
          unfold utf8Len
          rw [if_neg (by omega), if_neg (by omega), if_neg (by omega)]
        simp only [List.foldl_cons, List.foldl_nil]
        rw [decStep_incomplete out [] _ (by simp only [List.nil_append, List.headD_cons,
              List.length_cons, List.length_nil, hb1]; omega)]
        rw [decStep_incomplete out _ _ (by simp only [List.cons_append, List.nil_append,
              List.headD_cons, List.length_cons, List.length_nil, hb1]; omega)]
        rw [decStep_incomplete out _ _ (by simp only [List.cons_append, List.nil_append,
              List.headD_cons, List.length_cons, List.length_nil, hb1]; omega)]
        rw [decStep_complete out _ _ (by simp only [List.cons_append, List.nil_append,
              List.headD_cons, List.length_cons, List.length_nil, hb1]; omega)]
        have harg : ((240 + c.toNat / 262144) % 8) * 262144
            + ((128 + (c.toNat / 4096) % 64) % 64) * 4096
            + ((128 + (c.toNat / 64) % 64) % 64) * 64 + (128 + c.toNat % 64) % 64
            = c.toNat := by omega
        simp only [List.cons_append, List.nil_append, decodeChar]
        rw [harg, Char.ofNat_toNat]

/-- Decoding the UTF-8 encoding of a string from a clean state yields the
string back, with no pending bytes. -/
theorem decodeChunk_encode (s : List Char) :
    decodeChunk [] (utf8Encode s) = (s, []) := by
  suffices h : ∀ out : List Char, (utf8Encode s).foldl decStep (out, []) = (out ++ s, []) by
    simpa using h []
  induction s with
  | nil => intro out; simp [utf8Encode]
  | cons c cs ih =>
    intro out
    have henc : utf8Encode (c :: cs) = utf8EncodeChar c ++ utf8Encode cs := by
      simp [utf8Encode]
    rw [henc, List.foldl_append, foldl_decStep_encodeChar c out, ih (out ++ [c])]
    simp

theorem foldl_decStep_out (bs : List Nat) (out : List Char) (pend : List Nat) :
    bs.foldl decStep (out, pend)
      = (out ++ (bs.foldl decStep ([], pend)).1, (bs.foldl decStep ([], pend)).2) := by
  induction bs generalizing out pend with
  | nil => simp
  | cons b bs ih =>
    simp only [List.foldl_cons]
    by_cases hc : utf8Len ((pend ++ [b]).headD 0) ≤ (pend ++ [b]).length
    · have h1 : decStep (out, pend) b = (out ++ [decodeChar (pend ++ [b])], []) := by
        simp only [decStep]
        rw [if_pos hc]
      have h2 : decStep ([], pend) b = ([decodeChar (pend ++ [b])], []) := by
        simp only [decStep]
        rw [if_pos hc]
        simp
      rw [h1, h2, ih (out ++ [decodeChar (pend ++ [b])]) [],
        ih [decodeChar (pend ++ [b])] []]
      simp
    · have h1 : decStep (out, pend) b = (out, pend ++ [b]) := by
        simp only [decStep]
        rw [if_neg hc]
      have h2 : decStep ([], pend) b = ([], pend ++ [b]) := by
        simp only [decStep]
        rw [if_neg hc]
      rw [h1, h2, ih out (pend ++ [b])]

/-- The stateful decoder is insensitive to chunk boundaries: decoding two
chunks in sequence equals decoding their concatenation. -/
theorem decodeChunk_append (pend : List Nat) (a b : List Nat) :
    decodeChunk pend (a ++ b)
      = ((decodeChunk pend a).1 ++ (decodeChunk (decodeChunk pend a).2 b).1,
         (decodeChunk (decodeChunk pend a).2 b).2) := by
  show (a ++ b).foldl decStep ([], pend) = _
  rw [List.foldl_append]
  have heta : List.foldl decStep (List.foldl decStep ([], pend) a) b
      = List.foldl decStep ((List.foldl decStep ([], pend) a).1,
          (List.foldl decStep ([], pend) a).2) b := rfl
  rw [heta, foldl_decStep_out b]
  rfl

/-! ## The decode-and-parse pipeline

The composition performed by the read loop (app.js lines 139-158), at the
level of parsed events: per received byte chunk, decode statefully, append to
the text buffer, split off the completed segments, and parse each into an
event; the trailing partial segment stays in the buffer. -/

/-- Events emitted by the read loop for a list of byte chunks, starting from
decoder pending state `pend` and text buffer `buf`. -/
def pipeline (pend : List Nat) (buf : List Char) : List (List Nat) → List Event
  | [] => []
  | c :: cs =>
    (splitBlank (buf ++ (decodeChunk pend c).1)).dropLast.map parseSegment ++
      pipeline (decodeChunk pend c).2
        ((splitBlank (buf ++ (decodeChunk pend c).1)).getLastD []) cs

/-- Events emitted by the read loop from the initial state. -/
def pipelineEvents (chunks : List (List Nat)) : List Event :=
  pipeline [] [] chunks

theorem getLastD_mem_of_ne_nil {α : Type} (l : List α) (d : α) (h : l ≠ []) :
    l.getLastD d ∈ l := by
  induction l generalizing d with
  | nil => exact absurd rfl h
  | cons a l ih =>
    rw [List.getLastD_cons]
    cases l with
    | nil => simp [List.getLastD]
    | cons b m => exact List.mem_cons_of_mem a (ih a (by simp))

/-- The buffer retained after a split never contains a separator. -/
theorem noBlank_lastBuf (s : List Char) :
    noBlank ((splitBlank s).getLastD []) = true :=
  noBlank_of_mem_splitBlank s _ (getLastD_mem_of_ne_nil _ [] (splitBlank_ne_nil s))

theorem stringEvents_append (a b : List Char) :
    stringEvents (a ++ b)
      = stringEvents a ++ stringEvents ((splitBlank a).getLastD [] ++ b) := by
  unfold stringEvents
  rw [splitBlank_append a b,
    List.dropLast_append_of_ne_nil _ (splitBlank_ne_nil ((splitBlank a).getLastD [] ++ b)),
    List.map_append]

/-- The pipeline only depends on the concatenation of the byte chunks: its
output equals the events of the fully decoded, fully buffered text. -/
theorem pipeline_eq_stringEvents (cs : List (List Nat)) (pend : List Nat)
    (buf : List Char) (hbuf : noBlank buf = true) :
    pipeline pend buf cs = stringEvents (buf ++ (decodeChunk pend cs.flatten).1) := by
  induction cs generalizing pend buf with
  | nil =>
    have hd : decodeChunk pend ([] : List (List Nat)).flatten = ([], pend) := rfl
    rw [hd]
    simp [pipeline, stringEvents, splitBlank_of_noBlank buf hbuf]
  | cons c cs ih =>
    rw [show pipeline pend buf (c :: cs)
        = (splitBlank (buf ++ (decodeChunk pend c).1)).dropLast.map parseSegment ++
            pipeline (decodeChunk pend c).2
              ((splitBlank (buf ++ (decodeChunk pend c).1)).getLastD []) cs from rfl]
    rw [ih (decodeChunk pend c).2 _ (noBlank_lastBuf _)]
    rw [show (c :: cs).flatten = c ++ cs.flatten from rfl]
    rw [decodeChunk_append pend c cs.flatten]
    rw [show ((decodeChunk pend c).1 ++ (decodeChunk (decodeChunk pend c).2 cs.flatten).1,
          (decodeChunk (decodeChunk pend c).2 cs.flatten).2).1
        = (decodeChunk pend c).1 ++ (decodeChunk (decodeChunk pend c).2 cs.flatten).1
        from rfl]
    rw [← List.append_assoc]
    rw [stringEvents_append (buf ++ (decodeChunk pend c).1)
      (decodeChunk (decodeChunk pend c).2 cs.flatten).1]
    rfl

/-- A sequence of well-framed blank-line-terminated segments parses to exactly
one event per segment. -/
theorem stringEvents_framedText (segs : List (List Char))
    (h : ∀ s ∈ segs, noBlank s = true ∧ s.getLast? ≠ some '\n') :
    stringEvents (framedText segs) = segs.map parseSegment := by
  unfold stringEvents
  rw [splitBlank_framedText segs h]
  simp

/-! ## Stream lifecycle

The mutable module state of app.js (`dialogId`, `controller`, `streaming`,
the two output boxes, the status line, the two button `disabled` flags) is an
explicit record; cancellation tokens (`AbortController`) are numbered and a
token is "signalled" when `abort()` has been called on it. Network responses
are supplied by an environment record, and the observable effects (requests
issued, sink writes, status updates, abort signals) are collected in a trace.
The constant `RUNTIME_ID`, the request payloads, and `loadCards` (which never
throws and only affects the init request payload) are not modelled. -/

/-- The mutable state of the client. -/
structure AppState where
  dialogId : List Char
  controller : Option Nat
  nextToken : Nat
  aborted : List Nat
  streaming : Bool
  reasonBox : List Char
  answerBox : List Char
  statusText : List Char
  sendDisabled : Bool
  stopDisabled : Bool
deriving DecidableEq, Repr

/-- The state on page load, before any operation ran. -/
def initialState : AppState :=
  { dialogId := [], controller := none, nextToken := 0, aborted := [],
    streaming := false, reasonBox := [], answerBox := [], statusText := [],
    sendDisabled := false, stopDisabled := true }

/-- Observable effects of the lifecycle operations, in program order. -/
inductive Action where
  | requestInit
  | requestStream
  | requestStop
  | requestHistory
  | abortSignal (t : Nat)
  | clearReason
  | clearAnswer
  | appendReason (txt : List Char)
  | appendAnswer (txt : List Char)
  | setStatus (txt : List Char)
deriving DecidableEq, Repr

/-- The behaviour of the outside world during one operation: the parsed init
response (or an init fetch exception), the streaming response
(`none` = the fetch itself throws; otherwise success flag, numeric status and
optional body chunks), at which read call the body reader throws (if any),
and whether the best-effort stop / history requests fail (both failures are
swallowed by the code). -/
structure Env where
  initFetchThrows : Bool
  initROk : Bool
  initJsOk : Bool
  initError : Option (List Char)
  initDialogId : List Char
  streamResp : Option (Bool × Nat × Option (List (List Nat)))
  readThrowsAfter : Option Nat
  readErrMsg : List Char
  stopFetchFails : Bool
  historyFails : Bool
deriving DecidableEq, Repr

/-- app.js lines 53-69: POST `/api/dialog/init`; on `!r.ok || !js.ok` throw
`js.error || "init failed"`, else store the assigned dialog id and report
readiness. (`loadCards` never throws — both failures degrade to `[]` — so it
is absorbed into the request.) -/
def initDialog (env : Env) (st : AppState) :
    Except (List Char) Unit × AppState × List Action :=
  if env.initFetchThrows then
    (Except.error "TypeError: Failed to fetch".data, st, [Action.requestInit])
  else if env.initROk && env.initJsOk then
    (Except.ok (),
     { st with
       dialogId := env.initDialogId,
       statusText := "会话就绪：".data ++ env.initDialogId },
     [Action.requestInit,
      Action.setStatus ("会话就绪：".data ++ env.initDialogId)])
  else
    (Except.error
      (match env.initError with
        | some e => if e = [] then "init failed".data else e
        | none => "init failed".data),
     st, [Action.requestInit])

/-- The status text `请求失败：${res.status}` (app.js line 125). -/
def failMsg (status : Nat) : List Char :=
  "请求失败：".data ++ (Nat.repr status).data

/-- Route one parsed event (app.js lines 160-173): `meta` and `error` only
touch the status line, `reason`/`answer` unescape and append to their sink,
`done` marks completion and resets the affordances, anything else is ignored. -/
def dispatchEvent (st : AppState) (e : Event) : AppState × List Action :=
  if e.kind = "meta".data then
    ({ st with statusText := "已连接（meta）".data },
     [Action.setStatus "已连接（meta）".data])
  else if e.kind = "reason".data then
    ({ st with reasonBox := st.reasonBox ++ unescapeNl e.payload },
     [Action.appendReason (unescapeNl e.payload)])
  else if e.kind = "answer".data then
    ({ st with answerBox := st.answerBox ++ unescapeNl e.payload },
     [Action.appendAnswer (unescapeNl e.payload)])
  else if e.kind = "error".data then
    ({ st with statusText := "错误：".data ++ e.payload },
     [Action.setStatus ("错误：".data ++ e.payload)])
  else if e.kind = "done".data then
    ({ st with
       statusText := "完成".data, streaming := false,
       sendDisabled := false, stopDisabled := true },
     [Action.setStatus "完成".data])
  else (st, [])

/-- The actions of `dispatchEvent`, which do not depend on the current state. -/
def evActions (e : Event) : List Action :=
  if e.kind = "meta".data then [Action.setStatus "已连接（meta）".data]
  else if e.kind = "reason".data then [Action.appendReason (unescapeNl e.payload)]
  else if e.kind = "answer".data then [Action.appendAnswer (unescapeNl e.payload)]
  else if e.kind = "error".data then
    [Action.setStatus ("错误：".data ++ e.payload)]
  else if e.kind = "done".data then [Action.setStatus "完成".data]
  else []

/-- Dispatch the events of one chunk in order. -/
def dispatchList (st : AppState) : List Event → AppState × List Action
  | [] => (st, [])
  | e :: es =>
    ((dispatchList (dispatchEvent st e).1 es).1,
     (dispatchEvent st e).2 ++ (dispatchList (dispatchEvent st e).1 es).2)

/-- The read loop (app.js lines 139-175): per received chunk, decode, buffer,
split off completed segments, parse and dispatch each event in order. -/
def readLoop (st : AppState) (pend : List Nat) (buf : List Char) :
    List (List Nat) → AppState × List Action
  | [] => (st, [])
  | c :: cs =>
    ((readLoop
        (dispatchList st
          ((splitBlank (buf ++ (decodeChunk pend c).1)).dropLast.map parseSegment)).1
        (decodeChunk pend c).2
        ((splitBlank (buf ++ (decodeChunk pend c).1)).getLastD []) cs).1,
     (dispatchList st
        ((splitBlank (buf ++ (decodeChunk pend c).1)).dropLast.map parseSegment)).2 ++
       (readLoop
          (dispatchList st
            ((splitBlank (buf ++ (decodeChunk pend c).1)).dropLast.map parseSegment)).1
          (decodeChunk pend c).2
          ((splitBlank (buf ++ (decodeChunk pend c).1)).getLastD []) cs).2)

/-- The chunks actually handed to the loop before the reader throws (if it
does): `readThrowsAfter = some k` means the read call after `k` delivered
chunks raises instead of returning. -/
def deliveredChunks (env : Env) (chunks : List (List Nat)) : List (List Nat) :=
  match env.readThrowsAfter with
  | none => chunks
  | some k => chunks.take k

/-- Whether the reader throws before the body is exhausted. -/
def readThrew (env : Env) (chunks : List (List Nat)) : Bool :=
  match env.readThrowsAfter with
  | none => false
  | some k => decide (k ≤ chunks.length)

/-- app.js lines 99-184, `startStream`: implicit init when the dialog id is
empty (a thrown init error propagates); clear both sinks, set status, disable
"send"; fresh `AbortController`, `streaming = true`, enable "stop"; POST
`/api/chat/stream` (a thrown fetch error propagates with no cleanup); on
`!res.ok || !res.body` set the failure status, reset the affordances and
return without reading; otherwise run the read loop, catch a reader
exception (status update only if still `streaming`), and in the `finally`
block attempt a history refresh and reset the affordances. -/
def startStream (env : Env) (st : AppState) :
    Except (List Char) Unit × AppState × List Action :=
  match (if st.dialogId = [] then initDialog env st else (Except.ok (), st, [])) with
  | (Except.error e, st0, tr0) => (Except.error e, st0, tr0)
  | (Except.ok _, st0, tr0) =>
    let st1 : AppState :=
      { st0 with
        reasonBox := [], answerBox := [],
        statusText := "连接中…".data, sendDisabled := true,
        controller := some st0.nextToken, nextToken := st0.nextToken + 1,
        streaming := true, stopDisabled := false }
    let tr1 := tr0 ++ [Action.clearReason, Action.clearAnswer,
      Action.setStatus "连接中…".data]
    match env.streamResp with
    | none =>
      (Except.error "TypeError: Failed to fetch".data, st1,
       tr1 ++ [Action.requestStream])
    | some (rok, status, body) =>
      match body with
      | none =>
        (Except.ok (),
         { st1 with
           statusText := failMsg status, streaming := false,
           sendDisabled := false, stopDisabled := true },
         tr1 ++ [Action.requestStream, Action.setStatus (failMsg status)])
      | some chunks =>
        if rok then
          let st2 : AppState := { st1 with statusText := "流式中…".data }
          let rl := readLoop st2 [] [] (deliveredChunks env chunks)
          let pc : AppState × List Action :=
            if readThrew env chunks && rl.1.streaming then
              ({ rl.1 with statusText := "连接中断：".data ++ env.readErrMsg },
               [Action.setStatus ("连接中断：".data ++ env.readErrMsg)])
            else (rl.1, [])
          (Except.ok (),
           { pc.1 with
             streaming := false, sendDisabled := false,
             stopDisabled := true },
           tr1 ++ [Action.requestStream, Action.setStatus "流式中…".data] ++
             rl.2 ++ pc.2 ++ [Action.requestHistory])
        else
          (Except.ok (),
           { st1 with
             statusText := failMsg status, streaming := false,
             sendDisabled := false, stopDisabled := true },
           tr1 ++ [Action.requestStream, Action.setStatus (failMsg status)])

/-- app.js lines 81-96, `stopStream`: abort the current controller if any
(wrapped in try/catch), fire the best-effort POST `/api/chat/stop` (its
failure swallowed by try/catch, so `env.stopFetchFails` has no effect),
clear `streaming`, set the status and reset the two affordances. The
function cannot throw because every fallible step is wrapped. -/
def stopStream (env : Env) (st : AppState) :
    Except (List Char) Unit × AppState × List Action :=
  match st.controller with
  | some t =>
    (Except.ok (),
     { st with
       aborted := st.aborted ++ [t], streaming := false,
       statusText := "已停止".data, sendDisabled := false, stopDisabled := true },
     [Action.abortSignal t, Action.requestStop, Action.setStatus "已停止".data])
  | none =>
    (Except.ok (),
     { st with
       streaming := false, statusText := "已停止".data,
       sendDisabled := false, stopDisabled := true },
     [Action.requestStop, Action.setStatus "已停止".data])

/-! ## Lifecycle helper lemmas -/

theorem dispatchEvent_actions (st : AppState) (e : Event) :
    (dispatchEvent st e).2 = evActions e := by
  unfold dispatchEvent evActions
  split_ifs <;> rfl

theorem dispatchEvent_aborted (st : AppState) (e : Event) :
    (dispatchEvent st e).1.aborted = st.aborted := by
  unfold dispatchEvent
  split_ifs <;> rfl

theorem dispatchEvent_dialogId (st : AppState) (e : Event) :
    (dispatchEvent st e).1.dialogId = st.dialogId := by
  unfold dispatchEvent
  split_ifs <;> rfl

theorem dispatchList_actions (es : List Event) (st : AppState) :
    (dispatchList st es).2 = es.flatMap evActions := by
  induction es generalizing st with
  | nil => simp [dispatchList]
  | cons e es ih => simp [dispatchList, dispatchEvent_actions, ih]

theorem dispatchList_aborted (es : List Event) (st : AppState) :
    (dispatchList st es).1.aborted = st.aborted := by
  induction es generalizing st with
  | nil => rfl
  | cons e es ih =>
    unfold dispatchList
    rw [ih, dispatchEvent_aborted]

/-- The read loop dispatches exactly the actions of the pipeline events, in
order. -/
theorem readLoop_actions (cs : List (List Nat)) (st : AppState) (pend : List Nat)
    (buf : List Char) :
    (readLoop st pend buf cs).2 = (pipeline pend buf cs).flatMap evActions := by
  induction cs generalizing st pend buf with
  | nil => simp [readLoop, pipeline]
  | cons c cs ih =>
    unfold readLoop pipeline
    rw [dispatchList_actions, ih]
    simp

theorem readLoop_aborted (cs : List (List Nat)) (st : AppState) (pend : List Nat)
    (buf : List Char) :
    (readLoop st pend buf cs).1.aborted = st.aborted := by
  induction cs generalizing st pend buf with
  | nil => rfl
  | cons c cs ih =>
    unfold readLoop
    rw [ih, dispatchList_aborted]

theorem evActions_no_abort (e : Event) (t : Nat) :
    Action.abortSignal t ∉ evActions e := by
  unfold evActions
  split_ifs <;> simp

theorem initDialog_aborted (env : Env) (st : AppState) :
    (initDialog env st).2.1.aborted = st.aborted ∧
      ∀ t : Nat, Action.abortSignal t ∉ (initDialog env st).2.2 := by
  unfold initDialog
  split_ifs <;> simp

/-- C2: evidence against the claim. `startStream` never signals any
cancellation token and never marks a token as aborted: at app.js line 107 the
global `controller` is merely overwritten with a fresh `AbortController`, so
a still-active previous stream is not deactivated before the new stream
clears and writes the shared sinks. -/
theorem c2_startStream_never_aborts (env : Env) (st : AppState) :
    (startStream env st).2.1.aborted = st.aborted ∧
      ∀ t : Nat, Action.abortSignal t ∉ (startStream env st).2.2 := by
  unfold startStream
  rcases hinit : (if st.dialogId = [] then initDialog env st
      else (Except.ok (), st, [])) with ⟨r0, st0, tr0⟩
  have h0 : st0.aborted = st.aborted ∧ ∀ t : Nat, Action.abortSignal t ∉ tr0 := by
    by_cases hd : st.dialogId = []
    · rw [if_pos hd] at hinit
      have h := initDialog_aborted env st
      rw [hinit] at h
      exact h
    · rw [if_neg hd] at hinit
      have h := hinit.symm
      simp only [Prod.mk.injEq] at h
      obtain ⟨hr, hs, ht⟩ := h
      subst hs; subst ht
      exact ⟨rfl, by simp⟩
  cases r0 with
  | error e => exact h0
  | ok u =>
    cases hresp : env.streamResp with
    | none =>
      refine ⟨h0.1, ?_⟩
      intro t
      simp only [List.mem_append, List.mem_cons, List.not_mem_nil]
      rintro ((h | h | h | h) | h) <;> first
        | exact h0.2 t h
        | simp_all
    | some r =>
      rcases r with ⟨rok, status, body⟩
      cases body with
      | none =>
        refine ⟨h0.1, ?_⟩
        intro t
        simp only [List.mem_append, List.mem_cons, List.not_mem_nil]
        rintro ((h | h | h | h) | h | h | h) <;> first
          | exact h0.2 t h
          | simp_all
      | some chunks =>
        cases rok with
        | false =>
          refine ⟨h0.1, ?_⟩
          intro t
          simp only [Bool.false_eq_true, if_false, List.mem_append, List.mem_cons,
            List.not_mem_nil]
          rintro ((h | h | h | h) | h | h | h) <;> first
            | exact h0.2 t h
            | simp_all
        | true =>
          simp only [if_pos]
          constructor
          · split
            · rw [readLoop_aborted]
              exact h0.1
            · rw [readLoop_aborted]
              exact h0.1
          · intro t
            simp only [List.mem_append, List.mem_cons, List.not_mem_nil]
            rintro (((((h | h | h | h) | h | h) | h) | h) | h)
            · exact h0.2 t h
            · simp_all
            · simp_all
            · simp_all
            · simp_all
            · simp_all
            · rw [readLoop_actions] at h
              rcases List.mem_flatMap.mp h with ⟨e, -, hmem⟩
              exact evActions_no_abort e t hmem
            · revert h
              split <;> simp
            · simp_all

/-- C4: on a non-success status or a missing body, `startStream` sets the
failure status carrying the numeric code, clears `streaming`, resets both
affordances and returns normally; the observable trace is exactly the
prologue, the stream request and the single failure status update — the
parser is never invoked and no byte is read. -/
theorem c4_http_failure_no_parse (env : Env) (st : AppState)
    (rok : Bool) (status : Nat) (body : Option (List (List Nat)))
    (hd : st.dialogId ≠ [])
    (hresp : env.streamResp = some (rok, status, body))
    (hfail : rok = false ∨ body = none) :
    (startStream env st).1 = Except.ok () ∧
    (startStream env st).2.1.statusText = failMsg status ∧
    (startStream env st).2.1.streaming = false ∧
    (startStream env st).2.1.sendDisabled = false ∧
    (startStream env st).2.1.stopDisabled = true ∧
    (startStream env st).2.2 = [Action.clearReason, Action.clearAnswer,
      Action.setStatus "连接中…".data, Action.requestStream,
      Action.setStatus (failMsg status)] := by
  unfold startStream
  rw [if_neg hd, hresp]
  cases body with
  | none => simp
  | some chunks =>
    rcases hfail with hrok | hb
    · subst hrok
      simp
    · exact absurd hb (by simp)

def envC4 : Env :=
  { initFetchThrows := false, initROk := true, initJsOk := true,
    initError := none, initDialogId := ['d'], streamResp := some (false, 500, some []),
    readThrowsAfter := none, readErrMsg := [], stopFetchFails := false,
    historyFails := false }

def stReady : AppState := { initialState with dialogId := ['d'] }

theorem c4_http_failure_no_parse_witness :
    stReady.dialogId ≠ [] ∧ envC4.streamResp = some (false, 500, some []) ∧
    ((startStream envC4 stReady).1 = Except.ok () ∧
     (startStream envC4 stReady).2.1.statusText = failMsg 500 ∧
     (startStream envC4 stReady).2.1.streaming = false ∧
     (startStream envC4 stReady).2.1.sendDisabled = false ∧
     (startStream envC4 stReady).2.1.stopDisabled = true ∧
     (startStream envC4 stReady).2.2 = [Action.clearReason, Action.clearAnswer,
       Action.setStatus "连接中…".data, Action.requestStream,
       Action.setStatus (failMsg 500)]) :=
  ⟨by decide, rfl,
   c4_http_failure_no_parse envC4 stReady false 500 (some []) (by decide) rfl
     (Or.inl rfl)⟩

/-- C5: with an empty dialog id and an init handshake answering
`{ok: false, error: "boom"}`, `startStream` propagates the error `"boom"`
thrown by `initDialog` (app.js line 66) and the streaming endpoint is never
contacted: the whole trace is the single init request. -/
theorem c5_init_failure_no_stream (env : Env) (st : AppState)
    (hd : st.dialogId = [])
    (ht : env.initFetchThrows = false)
    (hro : env.initROk = true) (hjs : env.initJsOk = false)
    (herr : env.initError = some "boom".data) :
    (startStream env st).1 = Except.error "boom".data ∧
    (startStream env st).2.2 = [Action.requestInit] ∧
    Action.requestStream ∉ (startStream env st).2.2 := by
  unfold startStream initDialog
  rw [if_pos hd, ht, hro, hjs, herr]
  simp

def envC5 : Env :=
  { initFetchThrows := false, initROk := true, initJsOk := false,
    initError := some "boom".data, initDialogId := [], streamResp := none,
    readThrowsAfter := none, readErrMsg := [], stopFetchFails := false,
    historyFails := false }

theorem c5_init_failure_no_stream_witness :
    initialState.dialogId = [] ∧ envC5.initJsOk = false ∧
    envC5.initError = some "boom".data ∧
    ((startStream envC5 initialState).1 = Except.error "boom".data ∧
     (startStream envC5 initialState).2.2 = [Action.requestInit] ∧
     Action.requestStream ∉ (startStream envC5 initialState).2.2) :=
  ⟨rfl, rfl, rfl,
   c5_init_failure_no_stream envC5 initialState rfl rfl rfl rfl rfl⟩

/-- C8: calling `stopStream` with no active stream cannot throw (every
fallible step of app.js lines 81-96 is wrapped in try/catch) and leaves the
session identity, both sinks and the inactive `streaming` flag unchanged. -/
theorem c8_stop_idle_noop (env : Env) (st : AppState)
    (h : st.streaming = false) :
    (stopStream env st).1 = Except.ok () ∧
    (stopStream env st).2.1.dialogId = st.dialogId ∧
    (stopStream env st).2.1.reasonBox = st.reasonBox ∧
    (stopStream env st).2.1.answerBox = st.answerBox ∧
    (stopStream env st).2.1.streaming = false := by
  unfold stopStream
  cases hc : st.controller <;> simp

def envC8 : Env :=
  { initFetchThrows := false, initROk := true, initJsOk := true,
    initError := none, initDialogId := [], streamResp := none,
    readThrowsAfter := none, readErrMsg := [], stopFetchFails := true,
    historyFails := false }

theorem c8_stop_idle_noop_witness :
    initialState.streaming = false ∧
    ((stopStream envC8 initialState).1 = Except.ok () ∧
     (stopStream envC8 initialState).2.1.dialogId = initialState.dialogId ∧
     (stopStream envC8 initialState).2.1.reasonBox = initialState.reasonBox ∧
     (stopStream envC8 initialState).2.1.answerBox = initialState.answerBox ∧
     (stopStream envC8 initialState).2.1.streaming = false) :=
  ⟨rfl, c8_stop_idle_noop envC8 initialState rfl⟩

def envC3cex : Env :=
  { initFetchThrows := false, initROk := true, initJsOk := true,
    initError := none, initDialogId := [], streamResp := none,
    readThrowsAfter := none, readErrMsg := [], stopFetchFails := false,
    historyFails := false }

/-- C3 counterexample: when the streaming fetch itself throws (app.js line
111 is outside the try/finally starting at line 138), `startStream`
propagates the exception with no cleanup at all: "send" stays disabled,
"stop" stays enabled, `streaming` stays `true`, and no history refresh is
attempted — refuting the claim that cleanup runs on every terminal path
including a transport-level exception during fetch. -/
theorem c3_cleanup_counterexample :
    (startStream envC3cex stReady).1 = Except.error "TypeError: Failed to fetch".data ∧
    (startStream envC3cex stReady).2.1.sendDisabled = true ∧
    (startStream envC3cex stReady).2.1.stopDisabled = false ∧
    (startStream envC3cex stReady).2.1.streaming = true ∧
    Action.requestHistory ∉ (startStream envC3cex stReady).2.2 :=
  ⟨rfl, rfl, rfl, rfl, by decide⟩

/-- C3 as amended: once the streaming request has returned, the affordance
cleanup always runs; the history refresh is attempted exactly when the body
read phase was entered (on completion, after a `done` event, and on a reader
exception — cancellation included), while the non-success/missing-body path
resets the affordances without a history refresh; an exception thrown by the
request itself (the counterexample) runs no cleanup. -/
theorem c3_cleanup_on_response (env : Env) (st : AppState)
    (rok : Bool) (status : Nat) (body : Option (List (List Nat)))
    (hd : st.dialogId ≠ [])
    (hresp : env.streamResp = some (rok, status, body)) :
    (startStream env st).2.1.sendDisabled = false ∧
    (startStream env st).2.1.stopDisabled = true ∧
    (startStream env st).2.1.streaming = false ∧
    ((rok = false ∨ body = none) →
      Action.requestHistory ∉ (startStream env st).2.2) ∧
    (∀ chunks : List (List Nat), rok = true → body = some chunks →
      Action.requestHistory ∈ (startStream env st).2.2) := by
  unfold startStream
  rw [if_neg hd, hresp]
  cases body with
  | none => simp
  | some chunks =>
    cases rok with
    | false => simp
    | true =>
      refine ⟨by simp, by simp, by simp, ?_, ?_⟩
      · rintro (h | h) <;> simp_all
      · intro chunks' h1 h2
        simp

def envC3ok : Env :=
  { initFetchThrows := false, initROk := true, initJsOk := true,
    initError := none, initDialogId := [], streamResp := some (true, 200, some [[]]),
    readThrowsAfter := none, readErrMsg := [], stopFetchFails := false,
    historyFails := true }

theorem c3_cleanup_on_response_witness :
    stReady.dialogId ≠ [] ∧ envC3ok.streamResp = some (true, 200, some [[]]) ∧
    ((startStream envC3ok stReady).2.1.sendDisabled = false ∧
     (startStream envC3ok stReady).2.1.stopDisabled = true ∧
     (startStream envC3ok stReady).2.1.streaming = false ∧
     ((true = false ∨ (some [[]] : Option (List (List Nat))) = none) →
       Action.requestHistory ∉ (startStream envC3ok stReady).2.2) ∧
     (∀ chunks : List (List Nat), true = true → some [[]] = some chunks →
       Action.requestHistory ∈ (startStream envC3ok stReady).2.2)) :=
  ⟨by decide, rfl,
   c3_cleanup_on_response envC3ok stReady true 200 (some [[]]) (by decide) rfl⟩

set_option maxRecDepth 10000 in
/-- C6: the single segment `"event: reason\ndata: hello\\nworld\n\n"` parses
to exactly one event of kind `reason` whose payload still holds the escaped
two-character sequence, and dispatching it appends the literal two-line text
to the reason sink (the escape is unescaped only at dispatch, app.js line
163); the full byte-level loop produces the same sink content. -/
theorem c6_reason_segment_roundtrip :
    stringEvents ("event: reason\ndata: hello\\nworld\n\n").data
      = [⟨"reason".data, "hello\\nworld".data⟩] ∧
    (dispatchEvent initialState ⟨"reason".data, "hello\\nworld".data⟩).1.reasonBox
      = "hello\nworld".data ∧
    (readLoop initialState [] []
        [utf8Encode ("event: reason\ndata: hello\\nworld\n\n").data]).1.reasonBox
      = "hello\nworld".data ∧
    (readLoop initialState [] []
        [utf8Encode ("event: reason\ndata: hello\\nworld\n\n").data]).2
      = [Action.appendReason "hello\nworld".data] := by
  refine ⟨by decide, by decide, by decide, by decide⟩

/-- C9: a `data:` line contributes the remainder after the marker with all
leading and trailing whitespace removed (`line.slice(5).trim()`, app.js line
155), in arrival order; a `data:` line holding only whitespace contributes
the empty string, as the concrete instance shows. -/
theorem c9_data_trimmed_both_sides (seg : List Char) :
    (parseSegment seg).payload
      = joinSep ['\n'] (((splitNl seg).filter (fun l => dataMark.isPrefixOf l)).map
          (fun l => trimBoth (l.drop 5))) ∧
    (parseSegment ("data:   hello   \ndata: \t".data)).payload = "hello\n".data := by
  constructor
  · unfold parseSegment
    rw [parseLinesAux_spec]
    simp
  · decide

/-- C10: the emitted kind is the trimmed tail of the last `event:` line of
the segment, defaulting to `message` when there is none — each `event:` line
overwrites the previous one (`evt = line.slice(6).trim()`, app.js line 153). -/
theorem c10_last_event_line_wins (seg : List Char) :
    (parseSegment seg).kind
      = (((splitNl seg).filter (fun l => evMark.isPrefixOf l)).map
          (fun l => trimBoth (l.drop 6))).getLastD "message".data ∧
    parseSegment ("event: a\nevent: b\ndata: x".data) = ⟨"b".data, "x".data⟩ := by
  constructor
  · unfold parseSegment
    rw [parseLinesAux_spec]
  · decide

/-- C7: dispatching a `done` event sets the completed status, clears
`streaming` and resets the affordances, but the loop has no `break` (app.js
lines 168-173): the run's trace still contains the dispatch actions of every
event parsed after `done`, in order, followed by the history refresh. -/
theorem c7_done_keeps_reading (env : Env) (st : AppState)
    (status : Nat) (chunks : List (List Nat)) (pre post : List Event) (e : Event)
    (hd : st.dialogId ≠ [])
    (hresp : env.streamResp = some (true, status, some chunks))
    (hnothrow : env.readThrowsAfter = none)
    (hsplit : pipelineEvents chunks = pre ++ e :: post)
    (hdone : e.kind = "done".data) :
    (startStream env st).2.2
      = [Action.clearReason, Action.clearAnswer, Action.setStatus "连接中…".data,
         Action.requestStream, Action.setStatus "流式中…".data]
        ++ pre.flatMap evActions ++ evActions e ++ post.flatMap evActions
        ++ [Action.requestHistory] ∧
    (∀ s : AppState, (dispatchEvent s e).1.statusText = "完成".data ∧
      (dispatchEvent s e).1.streaming = false ∧
      (dispatchEvent s e).1.sendDisabled = false ∧
      (dispatchEvent s e).1.stopDisabled = true) := by
  constructor
  · unfold startStream
    rw [if_neg hd, hresp]
    have hdel : deliveredChunks env chunks = chunks := by
      unfold deliveredChunks
      rw [hnothrow]
    have hthrew : readThrew env chunks = false := by
      unfold readThrew
      rw [hnothrow]
    simp only [if_pos, hdel, hthrew, Bool.false_and, Bool.false_eq_true, if_false]
    rw [readLoop_actions]
    rw [show pipeline [] [] chunks = pipelineEvents chunks from rfl, hsplit]
    simp
  · intro s
    unfold dispatchEvent
    rw [hdone]
    rw [if_neg (by decide), if_neg (by decide), if_neg (by decide),
      if_neg (by decide), if_pos rfl]
    exact ⟨rfl, rfl, rfl, rfl⟩

def doneChunks : List (List Nat) :=
  [utf8Encode "event: done\ndata: ok\n\n".data,
   utf8Encode "event: answer\ndata: tail\n\n".data]

def envC7 : Env :=
  { initFetchThrows := false, initROk := true, initJsOk := true,
    initError := none, initDialogId := [], streamResp := some (true, 200, some doneChunks),
    readThrowsAfter := none, readErrMsg := [], stopFetchFails := false,
    historyFails := false }

set_option maxRecDepth 40000 in
theorem c7_done_keeps_reading_witness :
    stReady.dialogId ≠ [] ∧
    envC7.streamResp = some (true, 200, some doneChunks) ∧
    envC7.readThrowsAfter = none ∧
    pipelineEvents doneChunks
      = [] ++ (⟨"done".data, "ok".data⟩ : Event) ::
          [(⟨"answer".data, "tail".data⟩ : Event)] ∧
    (⟨"done".data, "ok".data⟩ : Event).kind = "done".data ∧
    ((startStream envC7 stReady).2.2
      = [Action.clearReason, Action.clearAnswer, Action.setStatus "连接中…".data,
         Action.requestStream, Action.setStatus "流式中…".data]
        ++ ([] : List Event).flatMap evActions
        ++ evActions ⟨"done".data, "ok".data⟩
        ++ [(⟨"answer".data, "tail".data⟩ : Event)].flatMap evActions
        ++ [Action.requestHistory] ∧
     (∀ s : AppState,
       (dispatchEvent s ⟨"done".data, "ok".data⟩).1.statusText = "完成".data ∧
       (dispatchEvent s ⟨"done".data, "ok".data⟩).1.streaming = false ∧
       (dispatchEvent s ⟨"done".data, "ok".data⟩).1.sendDisabled = false ∧
       (dispatchEvent s ⟨"done".data, "ok".data⟩).1.stopDisabled = true)) :=
  ⟨by decide, rfl, rfl, by decide, rfl,
   c7_done_keeps_reading envC7 stReady 200 doneChunks []
     [⟨"answer".data, "tail".data⟩] ⟨"done".data, "ok".data⟩
     (by decide) rfl rfl (by decide) rfl⟩

/-- C1: chunking invariance of the parser loop. If the byte stream is the
UTF-8 encoding of N well-framed blank-line-terminated segments, then for
every slicing of that byte stream into chunks — including slices in the
middle of a marker line or of a multi-byte character — the loop emits
exactly the N events of the segments, in order, and the same events as when
the whole stream arrives in a single chunk. -/
theorem c1_chunking_invariance (segs : List (List Char)) (chunks : List (List Nat))
    (hw : ∀ s ∈ segs, noBlank s = true ∧ s.getLast? ≠ some '\n')
    (hb : chunks.flatten = utf8Encode (framedText segs)) :
    pipelineEvents chunks = segs.map parseSegment ∧
    (pipelineEvents chunks).length = segs.length ∧
    pipelineEvents chunks = pipelineEvents [utf8Encode (framedText segs)] := by
  have hstr : pipelineEvents chunks = stringEvents (framedText segs) := by
    unfold pipelineEvents
    rw [pipeline_eq_stringEvents chunks [] [] rfl, hb, decodeChunk_encode]
    rfl
  have hone : pipelineEvents [utf8Encode (framedText segs)]
      = stringEvents (framedText segs) := by
    unfold pipelineEvents
    rw [pipeline_eq_stringEvents _ [] [] rfl]
    rw [show ([utf8Encode (framedText segs)] : List (List Nat)).flatten
        = utf8Encode (framedText segs) by simp]
    rw [decodeChunk_encode]
    rfl
  have hmap := stringEvents_framedText segs hw
  refine ⟨hstr.trans hmap, ?_, hstr.trans hone.symm⟩
  rw [hstr, hmap, List.length_map]

/-- The two well-framed segments of the C1 witness; the first one contains
multi-byte characters. -/
def c1Segs : List (List Char) :=
  ["event: reason\ndata: 流式".data, "data: ok".data]

/-- A slicing of the encoded witness stream that cuts both inside the
`event:` marker line (after byte 3) and inside the three-byte encoding of
`流` (after byte 21: the character occupies bytes 20-22). -/
def c1Chunks : List (List Nat) :=
  [(utf8Encode (framedText c1Segs)).take 3,
   ((utf8Encode (framedText c1Segs)).drop 3).take 18,
   (utf8Encode (framedText c1Segs)).drop 21]

set_option maxRecDepth 40000 in
theorem c1_chunking_invariance_witness :
    (∀ s ∈ c1Segs, noBlank s = true ∧ s.getLast? ≠ some '\n') ∧
    c1Chunks.flatten = utf8Encode (framedText c1Segs) ∧
    (pipelineEvents c1Chunks = c1Segs.map parseSegment ∧
     (pipelineEvents c1Chunks).length = c1Segs.length ∧
     pipelineEvents c1Chunks = pipelineEvents [utf8Encode (framedText c1Segs)]) :=
  ⟨by decide, by decide,
   c1_chunking_invariance c1Segs c1Chunks (by decide) (by decide)⟩

end Tarot
